import Mathlib

/-!
Verification of the hubply/cmd build-and-reload harness.

The Go sources embedded here:
  * `harness/build.go` — `Build`, `getAppVersion`, `calcImportAliases`,
    `addAlias`, `makePackageAlias`, `containsValue`, `newCompileError`,
    and the `importErrorPattern` regex;
  * the harness HTTP front end — `Harness.ServeHTTP`, `Harness.Refresh`,
    `proxyWebsocket`.

Pure helpers become Lean functions; external effects (running `go build`,
`go get`, `git`, `os.Stat`, reading files) become explicit oracle inputs.
-/

namespace Hubply

/-! ### Decimal digits

`makePackageAlias` builds candidate aliases with `fmt.Sprintf("%s%d", pkgName, i)`,
i.e. the decimal rendering of `i`, which `Nat.repr` computes in Lean.  To reason
about freshness of the candidates we relate `Nat.repr` to a structurally
recursive decimal spelling and prove a parse round-trip. -/

/-- Decimal digit list of a natural number (most significant first);
structurally recursive counterpart of `Nat.toDigits 10`. -/
def toDecDigits (n : Nat) : List Char :=
  if _h : n < 10 then [Nat.digitChar n]
  else toDecDigits (n / 10) ++ [Nat.digitChar (n % 10)]
termination_by n
decreasing_by exact Nat.div_lt_self (by omega) (by omega)

/-- Numeric value of a decimal digit character. -/
def digitVal (c : Char) : Nat := c.toNat - 48

/-- Value of a list of decimal digit characters, most significant first
(the semantics of `strconv.Atoi` on an in-range digit run). -/
def parseDigits (cs : List Char) : Nat :=
  cs.foldl (fun a c => 10 * a + digitVal c) 0

/-! ### The `gospf.Error` record

`gospf.Error` lives in the external `github.com/hubply/gospf` package; the
fields modelled are exactly the ones `harness` reads or writes (the
`CompileError` of the spec: source type, title, path, 1-based line, description, meta
error, surrounding source lines, deep link). -/

/-- The `gospf.Error` value (`CompileError` in the spec). Zero values match
the zero-initialised struct fields of Go. -/
structure GospfError where
  sourceType : String := ""
  title : String := ""
  path : String := ""
  line : Nat := 0
  description : String := ""
  metaError : String := ""
  sourceLines : List String := []
  link : String := ""
deriving DecidableEq

/-! ### Diagnostic parsing (`newCompileError`, build.go)

`newCompileError` tries, in order, the two Go regexes
`(?m)^([^:#]+):(\d+):(\d+:)? (.*)$` and `(?m)^(.*?)\:(\d+)\:\s(.*?)$`
with `FindSubmatch` (leftmost match).  Under `(?m)`, `^` anchors a match at
the start of the text or right after a newline, and `$` holds at the end of
the text or right before a newline.  Only `.` is newline-free: the negated
class `[^:#]` matches `\n`, and `\s` is `[\t\n\f\r ]`, so a match may span
lines — the path group of the primary pattern can contain newlines, and the
whitespace of the fallback pattern can be the newline itself, with the
message group then being the following line.  The matchers below implement
the backtracking-preference semantics of the two patterns at one match
start; `FindSubmatch` is the first success over the line-start suffixes of
the output, in text order. -/

/-- The `\s` character class of Go regexes: `[\t\n\f\r ]`. -/
def goSpace (c : Char) : Bool :=
  c == ' ' || c == '\t' || c == '\n' || c == '\x0c' || c == '\r'

/-- Drop leading whitespace characters. -/
def dropLeadingSpace : List Char → List Char
  | [] => []
  | c :: rest => if goSpace c then dropLeadingSpace rest else c :: rest

/-- `strings.TrimSpace` on the ASCII outputs involved: strip leading and
trailing whitespace. -/
def trimSpace (s : String) : String :=
  String.mk ((dropLeadingSpace ((dropLeadingSpace s.data).reverse)).reverse)

/-- Tail of the primary pattern after `path:line:` — matches `(\d+:)? (.*)$`,
returning the message group.  The optional column group is greedy: a
nonempty digit run followed by `:` and the literal space commits to the
column form (when it cannot complete, the run starts with a digit, so
skipping the optional group cannot place the literal space there either);
otherwise the literal space must follow at once.  `(.*)$` greedily takes
the newline-free run to the end of the line, where `$` holds. -/
def matchColTail (r3 : List Char) : Option (List Char) :=
  let d2 := r3.takeWhile Char.isDigit
  let r4 := r3.drop d2.length
  if d2 ≠ [] ∧ r4.take 2 = [':', ' '] then
    some ((r4.drop 2).takeWhile fun c => c != '\n')
  else if r3.take 1 = [' '] then
    some ((r3.drop 1).takeWhile fun c => c != '\n')
  else none

/-- Match of the primary diagnostic pattern `^([^:#]+):(\d+):(\d+:)? (.*)$`
at one match start: returns (path, line digits, message).  `[^:#]+` is
greedy, admits newlines, and cannot contain `:`, so only its maximal run
can be followed by the required `:` (a shorter backtrack fails at once);
likewise for the digit run. -/
def matchLineCol (s : List Char) :
    Option (List Char × List Char × List Char) :=
  let p := s.takeWhile fun c => c != ':' && c != '#'
  let afterP := s.drop p.length
  if p ≠ [] ∧ afterP.take 1 = [':'] then
    let r1 := afterP.drop 1
    let d := r1.takeWhile Char.isDigit
    let afterD := r1.drop d.length
    if d ≠ [] ∧ afterD.take 1 = [':'] then
      (matchColTail (afterD.drop 1)).map fun msg => (p, d, msg)
    else none
  else none

/-- Match of the fallback pattern `^(.*?)\:(\d+)\:\s(.*?)$` at one match
start: the lazy newline-free prefix stops at each `:` in turn (leftmost
first) and fails at a newline; at a stop the pattern needs a nonempty digit
run, a `:` and one `\s` character — which may itself be the newline — and
the message is the newline-free run after it, forced to a line end by
`(.*?)$`.  `acc` holds the reversed prefix consumed so far. -/
def matchFallbackAux : List Char → List Char →
    Option (List Char × List Char × List Char)
  | _, [] => none
  | acc, c :: rest =>
    if c = '\n' then none
    else if c = ':' then
      let d := rest.takeWhile Char.isDigit
      match d, rest.drop d.length with
      | _ :: _, ':' :: w :: msg =>
        if goSpace w then some (acc.reverse, d, msg.takeWhile fun ch => ch != '\n')
        else matchFallbackAux (c :: acc) rest
      | _, _ => matchFallbackAux (c :: acc) rest
    else matchFallbackAux (c :: acc) rest

/-- Match of the fallback diagnostic pattern at one match start. -/
def matchFallback (s : List Char) : Option (List Char × List Char × List Char) :=
  matchFallbackAux [] s

/-- The suffixes of the text starting right after each newline — together
with the text itself, the match starts admitted by `(?m)` `^`. -/
def tailsAfterNewlines : List Char → List (List Char)
  | [] => []
  | c :: rest =>
    if c = '\n' then rest :: tailsAfterNewlines rest
    else tailsAfterNewlines rest

/-- All `(?m)` match starts of the text, in text order: the whole text,
then the suffix after each newline. -/
def lineStartSuffixes (cs : List Char) : List (List Char) :=
  cs :: tailsAfterNewlines cs

/-- First match start at which the matcher `f` succeeds — the leftmost
match of a `^`-anchored `(?m)` pattern over the whole output. -/
def firstStartMatch (f : List Char → Option α) : List (List Char) → Option α
  | [] => none
  | l :: ls =>
    match f l with
    | some r => some r
    | none => firstStartMatch f ls

/-- External inputs of `newCompileError`: the `error.link` config value,
`filepath.Abs`, and `gospf.ReadLines` (error carries the error text). -/
structure CompileConfig where
  errorLink : String
  abs : String → String
  readLines : String → Except String (List String)

/-- `newCompileError` (build.go): parse `go build` output into a
`gospf.Error`.  Primary pattern first, then the fallback pattern, else a
generic error pointing at the console.  On a match, the path, the
`strconv.Atoi` of the line digits and the message populate the error; the
offending file is read for source context (a read failure goes to
`MetaError`). -/
def newCompileError (cfg : CompileConfig) (output : String) : GospfError :=
  let starts := lineStartSuffixes output.data
  let m :=
    match firstStartMatch matchLineCol starts with
    | some r => some r
    | none => firstStartMatch matchFallback starts
  match m with
  | none =>
    { sourceType := "Go code", title := "Go Compilation Error",
      description := "See console for build error." }
  | some (p, d, msg) =>
    let relFilename := String.mk p
    let absFilename := cfg.abs relFilename
    let base : GospfError :=
      { sourceType := "Go code", title := "Go Compilation Error",
        path := relFilename, description := String.mk msg,
        line := parseDigits d }
    let withLink := if cfg.errorLink != "" then { base with link := cfg.errorLink } else base
    match cfg.readLines absFilename with
    | .error e => { withLink with metaError := absFilename ++ ": " ++ e }
    | .ok ls => { withLink with sourceLines := ls }

/-! ### The fetch-and-retry build loop (`Build`, build.go)

`importErrorPattern = regexp.MustCompile("cannot find package \"([^\"]+)\"")`
is scanned over the combined output; the loop keeps a `gotten` set, fetches a
newly missing package once (`go get`), and otherwise returns
`newCompileError`.  External commands are oracle inputs: `buildOutput k` is
the outcome of the `k`-th `go build` (`none` = success), `fetchOk k pkg` the
outcome of the `go get pkg` issued right after attempt `k`.  `getAppVersion`
runs inside the loop but only alters the linker flags, which the oracle
already absorbs.  The Go `for` loop is unbounded; `buildLoop` carries fuel
and returns `none` in place of divergence. -/

/-- Leftmost match of `importErrorPattern` — the first position where the
literal `cannot find package "` is followed by a nonempty quote-free run and
a closing quote; the run is the captured package name. -/
def findMissingPackage : List Char → Option String
  | [] => none
  | c :: rest =>
    let lit := "cannot find package \"".data
    if lit.isPrefixOf (c :: rest) then
      let after := (c :: rest).drop lit.length
      let pkg := after.takeWhile fun ch => ch != '"'
      match pkg, after.drop pkg.length with
      | _ :: _, '"' :: _ => some (String.mk pkg)
      | _, _ => findMissingPackage rest
    else findMissingPackage rest

/-- `App` as `Build` constructs it (`NewApp(binName)`): a handle on the
binary path; the port and process are attached later by the harness. -/
structure App where
  binName : String
deriving DecidableEq

/-- `NewApp` (app.go, external to the given sources): bind the binary path. -/
def NewApp (binName : String) : App := ⟨binName⟩

/-- Oracle inputs of one `Build` call. `psResult` is the outcome of
`ProcessSource` (the SourceAnalyzer, a separate file of the package). -/
structure BuildEnv where
  psResult : Except GospfError Unit
  buildOutput : Nat → Option String
  fetchOk : Nat → String → Bool
  cfg : CompileConfig

/-- Result of the retry loop: a built `App` or a compile error. -/
inductive LoopResult where
  | success (a : App)
  | failure (e : GospfError)
deriving DecidableEq

/-- The `for` loop of `Build` (build.go lines 77–126).  Returns the loop's
outcome (`none` when `fuel` runs out, standing for divergence) together with
the list of packages actually passed to `go get`, in order. -/
def buildLoop (env : BuildEnv) (binName : String) :
    Nat → Nat → List String → Option LoopResult × List String
  | 0, _, _ => (none, [])
  | fuel + 1, k, gotten =>
    match env.buildOutput k with
    | none => (some (.success (NewApp binName)), [])
    | some out =>
      match findMissingPackage out.data with
      | none => (some (.failure (newCompileError env.cfg out)), [])
      | some pkg =>
        if pkg ∈ gotten then (some (.failure (newCompileError env.cfg out)), [])
        else if env.fetchOk k pkg then
          let r := buildLoop env binName fuel (k + 1) (gotten ++ [pkg])
          (r.1, pkg :: r.2)
        else (some (.failure (newCompileError env.cfg out)), [pkg])

/-- `Build` (build.go): after `ProcessSource` and code generation, run the
fetch-and-retry loop.  The fatal paths (`go` or the import path unresolvable,
`ERROR.Fatalf`) abort the process and are outside the returned values. -/
def Build (env : BuildEnv) (binName : String) (fuel : Nat) :
    Option (Option App × Option GospfError) :=
  match env.psResult with
  | .error e => some (none, some e)
  | .ok _ =>
    match (buildLoop env binName fuel 0 []).1 with
    | none => none
    | some (.success a) => some (some a, none)
    | some (.failure e) => some (none, some e)

/-! ### Import aliases (`calcImportAliases`, build.go)

The Go code uses a `map[string]string`; entries are only ever inserted (never
overwritten), `containsValue` scans values, and lookups are by key, so an
insertion-ordered association list is a faithful model. -/

/-- `TypeExpr` — only its `PkgName` field reaches `calcImportAliases`. -/
structure TypeExpr where
  pkgName : String
deriving DecidableEq

/-- A method argument: import path and type expression. -/
structure MethodArg where
  importPath : String
  typeExpr : TypeExpr
deriving DecidableEq

/-- A method spec — only its `Args` reach `calcImportAliases`. -/
structure MethodSpec where
  args : List MethodArg
deriving DecidableEq

/-- A controller / test-suite type spec as `calcImportAliases` reads it. -/
structure TypeInfo where
  importPath : String
  packageName : String
  methodSpecs : List MethodSpec
deriving DecidableEq

/-- The slice of `SourceInfo` consumed by `calcImportAliases`:
`ControllerSpecs()`, `TestSuites()` and `InitImportPaths`. -/
structure SourceInfo where
  controllerSpecs : List TypeInfo
  testSuites : List TypeInfo
  initImportPaths : List String
deriving DecidableEq

/-- Key lookup in the alias table (`aliases[importPath]`). -/
def lookupAlias (m : List (String × String)) (k : String) : Option String :=
  (m.find? fun e => e.1 == k).map fun e => e.2

/-- `containsValue` (build.go): does any entry carry this alias value? -/
def containsValue (m : List (String × String)) (v : String) : Bool :=
  m.any fun e => e.2 == v

/-- The sequence of candidate aliases tried by `makePackageAlias`:
first `pkgName` itself, then `fmt.Sprintf("%s%d", pkgName, i)` for
`i = 0, 1, 2, …`. -/
def aliasCandidate (pkgName : String) : Nat → String
  | 0 => pkgName
  | i + 1 => pkgName ++ Nat.repr i

/-- The scan loop of `makePackageAlias`: try candidates from index `k`
upward until one is not a value of the table.  The Go loop is unbounded;
fuel is carried and proven sufficient below (the candidates are pairwise
distinct, so at most `m.length + 1` of them can be in use). -/
def findFreeAlias (m : List (String × String)) (pkgName : String) :
    Nat → Nat → String
  | 0, k => aliasCandidate pkgName k
  | fuel + 1, k =>
    if containsValue m (aliasCandidate pkgName k) then
      findFreeAlias m pkgName fuel (k + 1)
    else aliasCandidate pkgName k

/-- `makePackageAlias` (build.go): the first unused candidate alias. -/
def makePackageAlias (m : List (String × String)) (pkgName : String) : String :=
  findFreeAlias m pkgName (m.length + 2) 0

/-- `addAlias` (build.go): insert an alias for `importPath` unless one is
already present. -/
def addAlias (m : List (String × String)) (importPath pkgName : String) :
    List (String × String) :=
  match lookupAlias m importPath with
  | some _ => m
  | none => m ++ [(importPath, makePackageAlias m pkgName)]

/-- The body of the nested loops of `calcImportAliases` for one type spec:
its own package, then every method argument with a nonempty import path. -/
def addTypeAliases (m : List (String × String)) (spec : TypeInfo) :
    List (String × String) :=
  let m1 := addAlias m spec.importPath spec.packageName
  spec.methodSpecs.foldl
    (fun m2 meth =>
      meth.args.foldl
        (fun m3 arg =>
          if arg.importPath == "" then m3
          else addAlias m3 arg.importPath arg.typeExpr.pkgName)
        m2)
    m1

/-- The first phase of `calcImportAliases`: the `typeArrays` double loop
over `ControllerSpecs()` then `TestSuites()`. -/
def calcAliasesMain (src : SourceInfo) : List (String × String) :=
  [src.controllerSpecs, src.testSuites].foldl
    (fun m specs => specs.foldl addTypeAliases m) []

/-- The body of the `InitImportPaths` loop of `calcImportAliases`: an entry
not yet present gets the discard alias `"_"`. -/
def addInitAlias (m : List (String × String)) (ip : String) :
    List (String × String) :=
  match lookupAlias m ip with
  | some _ => m
  | none => m ++ [(ip, "_")]

/-- `calcImportAliases` (build.go): the type-spec phase, then the
`InitImportPaths` loop. -/
def calcImportAliases (src : SourceInfo) : List (String × String) :=
  src.initImportPaths.foldl addInitAlias (calcAliasesMain src)

/-- Invariant of the alias table maintained by the type-spec phase: alias
values are pairwise distinct and keys are pairwise distinct. -/
def aliasTableInv (m : List (String × String)) : Prop :=
  (m.map fun e => e.2).Nodup ∧ (m.map fun e => e.1).Nodup

/-! ### `getAppVersion` (build.go)

External state as oracle inputs: the `APP_VERSION` environment variable
(empty = unset, as the code tests `!= ""`), whether `git` is on the PATH,
the `os.Stat` of `BasePath/.git`, and the output of
`git describe --always --dirty` (`none` = command error).  The result is
`Except`: `.error` marks a Go runtime panic.  In the branch
`if (err != nil && os.IsNotExist(err)) || !info.IsDir()`, a stat error that
is not `IsNotExist` leaves `info` nil, and `info.IsDir()` dereferences a nil
interface — a panic, modelled as `.error`. -/

/-- Outcome of `os.Stat` on the `.git` directory. -/
inductive StatResult where
  | errNotExist
  | errOther
  | ok (isDir : Bool)
deriving DecidableEq

/-- Oracle inputs of `getAppVersion`. -/
structure VersionEnv where
  appVersion : String
  gitOnPath : Bool
  statGitDir : StatResult
  describeOutput : Option String
deriving DecidableEq

/-- `getAppVersion` (build.go). -/
def getAppVersion (e : VersionEnv) : Except String String :=
  if e.appVersion != "" then .ok e.appVersion
  else if e.gitOnPath then
    match e.statGitDir with
    | .errNotExist => .ok ""
    | .errOther => .error "runtime error: invalid memory address or nil pointer dereference"
    | .ok isDir =>
      if !isDir then .ok ""
      else
        match e.describeOutput with
        | none => .ok ""
        | some out => .ok ("git-" ++ trimSpace out)
  else .ok ""

/-! ### `Harness.ServeHTTP` and `Harness.Refresh`

One request is a pure function of the `lastRequestHadError` flag, the URL
path, the `Upgrade` header, and the outcome of `watcher.Notify()` (an oracle:
`none` = no change or successful rebuild).  The two `atomic.CompareAndSwap`
calls reduce, for a single request, to setting the flag to 1 on a Notify
error and to 0 on success. -/

/-- `strings.EqualFold` on the ASCII header values involved. -/
def equalFold (a b : String) : Bool := a.toLower == b.toLower

/-- What `ServeHTTP` did with the request. -/
inductive ServeAction where
  | silenced
  | renderedError (e : GospfError)
  | proxiedHTTP
  | proxiedWebsocket
deriving DecidableEq

/-- Result of one `ServeHTTP` call: the flag afterwards, whether
`watcher.Notify()` was invoked, and the action taken. -/
structure ServeResult where
  flagAfter : Bool
  notifyCalled : Bool
  action : ServeAction
deriving DecidableEq

/-- `Harness.ServeHTTP`: favicon noise is dropped while the error flag is
set; otherwise Notify runs first, an error renders the error page, and a
success forwards the request (websocket tunnel on a case-insensitive
`Upgrade: websocket`, reverse proxy otherwise). -/
def serveHTTP (lastRequestHadError : Bool) (urlPath upgradeHeader : String)
    (notifyResult : Option GospfError) : ServeResult :=
  if lastRequestHadError && urlPath == "/favicon.ico" then
    ⟨lastRequestHadError, false, .silenced⟩
  else
    match notifyResult with
    | some e => ⟨true, true, .renderedError e⟩
    | none =>
      ⟨false, true,
        if equalFold upgradeHeader "websocket" then .proxiedWebsocket
        else .proxiedHTTP⟩

/-- A supervised child process as the harness sees it: binary, assigned
port, and whether its process is running. -/
structure AppProc where
  binName : String
  port : Nat
  running : Bool
deriving DecidableEq

/-- Observable events of one `Refresh` call, in order. -/
inductive RefreshEvent where
  | killedPrior (binName : String)
  | ranBuild (ok : Bool)
  | startedChild (ok : Bool)
deriving DecidableEq

/-- Result of `Refresh`: the new `h.app` field, the returned error, and the
event trace. -/
structure RefreshOutcome where
  app : Option AppProc
  err : Option GospfError
  events : List RefreshEvent
deriving DecidableEq

/-- `Harness.Refresh`: kill the prior app if any, rebuild, and start the new
binary on the harness port.  `buildRes` is the result pair of `Build`, `startErr` the
outcome of `Cmd().Start()`.  A fresh `App` from `Build` has no port and no
running process; `running` becomes true only after a successful start.  The
`(none, none)` build pair would make `h.app.Port = h.port` dereference nil
(`Build` never produces it), modelled as `none`. -/
def refresh (prior : Option AppProc) (buildRes : Option App × Option GospfError)
    (startErr : Option String) (harnessPort : Nat) : Option RefreshOutcome :=
  let killEvents : List RefreshEvent :=
    match prior with
    | some a => [.killedPrior a.binName]
    | none => []
  match buildRes with
  | (ba, some e) =>
    some ⟨ba.map fun a => ⟨a.binName, 0, false⟩, some e, killEvents ++ [.ranBuild false]⟩
  | (some a, none) =>
    let started : AppProc := ⟨a.binName, harnessPort, false⟩
    match startErr with
    | none =>
      some ⟨some { started with running := true }, none,
        killEvents ++ [.ranBuild true, .startedChild true]⟩
    | some msg =>
      some ⟨some started,
        some { title := "App failed to start up", description := msg },
        killEvents ++ [.ranBuild true, .startedChild false]⟩
  | (none, none) => none

/-! ### The websocket tunnel (`proxyWebsocket`)

After the dial/hijack/request-replay prologue, `proxyWebsocket` runs
`errc := make(chan error, 2)`, spawns `go cp(d, nc)` and `go cp(nc, d)`
(each performs one `io.Copy` and one send on `errc`), executes one `<-errc`,
and returns — the deferred `nc.Close()` and `d.Close()` then close both
connections.  The transition system below has one state per goroutine plus
the channel occupancy; a copier may finish its copy at any time (end of
stream, error, or its connection closed under it). -/

/-- Phase of one copy goroutine: still in `io.Copy`, copy returned but the
channel send not yet done, or the send done (goroutine exited). -/
inductive CopierPhase where
  | copying
  | finished
  | sent
deriving DecidableEq

/-- Phase of the parent `proxyWebsocket` call: blocked in `<-errc`, or
returned (deferred closes executed — both connections closed). -/
inductive TunnelPhase where
  | waitingRecv
  | closedConns
deriving DecidableEq

/-- Global state of the tunnel: the two copy directions, the parent, and the
number of values buffered in `errc` (capacity 2). -/
structure WsState where
  clientToBackend : CopierPhase
  backendToClient : CopierPhase
  main : TunnelPhase
  chanBuf : Nat
deriving DecidableEq

/-- Initial state: both copies running, parent at `<-errc`, channel empty. -/
def wsInit : WsState := ⟨.copying, .copying, .waitingRecv, 0⟩

/-- Interleaving semantics of `proxyWebsocket` after the spawn: a copier's
`io.Copy` may return at any time; a send on the buffered channel needs free
capacity; the single receive needs a buffered value and, on return, closes
both connections. -/
inductive WsStep : WsState → WsState → Prop where
  | finishC2B (s : WsState) : s.clientToBackend = .copying →
      WsStep s { s with clientToBackend := .finished }
  | finishB2C (s : WsState) : s.backendToClient = .copying →
      WsStep s { s with backendToClient := .finished }
  | sendC2B (s : WsState) : s.clientToBackend = .finished → s.chanBuf < 2 →
      WsStep s { s with clientToBackend := .sent, chanBuf := s.chanBuf + 1 }
  | sendB2C (s : WsState) : s.backendToClient = .finished → s.chanBuf < 2 →
      WsStep s { s with backendToClient := .sent, chanBuf := s.chanBuf + 1 }
  | recvAndClose (s : WsState) : s.main = .waitingRecv → 1 ≤ s.chanBuf →
      WsStep s { s with main := .closedConns, chanBuf := s.chanBuf - 1 }

/-- States reachable from the initial tunnel state. -/
def WsReachable : WsState → Prop := Relation.ReflTransGen WsStep wsInit

/-- Remaining-work weight of one copier. -/
def copierWeight : CopierPhase → Nat
  | .copying => 2
  | .finished => 1
  | .sent => 0

/-- Strictly decreasing measure of the tunnel system: every execution takes
at most `wsMeasure wsInit = 5` steps. -/
def wsMeasure (s : WsState) : Nat :=
  copierWeight s.clientToBackend + copierWeight s.backendToClient +
    (if s.main = .waitingRecv then 1 else 0)

/-- How many copiers have completed their channel send. -/
def sentCount (s : WsState) : Nat :=
  (if s.clientToBackend = .sent then 1 else 0) +
    (if s.backendToClient = .sent then 1 else 0)

/-! ## Groundwork lemmas: decimal digits and `Nat.repr` -/

theorem toDecDigits_of_lt (n : Nat) (h : n < 10) :
    toDecDigits n = [Nat.digitChar n] := by
  rw [toDecDigits]
  simp [h]

theorem toDecDigits_of_ge (n : Nat) (h : 10 ≤ n) :
    toDecDigits n = toDecDigits (n / 10) ++ [Nat.digitChar (n % 10)] := by
  rw [toDecDigits]
  simp [Nat.not_lt.mpr h]

theorem toDecDigits_ne_nil (n : Nat) : toDecDigits n ≠ [] := by
  by_cases h : n < 10
  · rw [toDecDigits_of_lt n h]; simp
  · rw [toDecDigits_of_ge n (Nat.not_lt.mp h)]; simp

theorem toDigitsCore_eq_toDecDigits :
    ∀ (fuel n : Nat) (ds : List Char), n < fuel →
      Nat.toDigitsCore 10 fuel n ds = toDecDigits n ++ ds := by
  intro fuel
  induction fuel with
  | zero => intro n ds h; omega
  | succ f ih =>
    intro n ds _h
    show (if n / 10 = 0 then Nat.digitChar (n % 10) :: ds
          else Nat.toDigitsCore 10 f (n / 10) (Nat.digitChar (n % 10) :: ds)) =
        toDecDigits n ++ ds
    by_cases h10 : n / 10 = 0
    · have hn : n < 10 := by omega
      have hm : n % 10 = n := Nat.mod_eq_of_lt hn
      simp [h10, toDecDigits_of_lt n hn, hm]
    · have hge : 10 ≤ n := by
        by_contra hc
        exact h10 (Nat.div_eq_of_lt (Nat.not_le.mp hc))
      have hlt : n / 10 < f := by
        have : n / 10 < n := Nat.div_lt_self (by omega) (by omega)
        omega
      simp only [h10, if_false]
      rw [ih (n / 10) (Nat.digitChar (n % 10) :: ds) hlt,
        toDecDigits_of_ge n hge, List.append_assoc, List.cons_append,
        List.nil_append]

theorem repr_data_eq (n : Nat) : (Nat.repr n).data = toDecDigits n := by
  show (List.asString (Nat.toDigitsCore 10 (n + 1) n [])).data = toDecDigits n
  rw [toDigitsCore_eq_toDecDigits (n + 1) n [] (Nat.lt_succ_self n)]
  simp [List.asString]

theorem digitVal_digitChar (d : Nat) (h : d < 10) :
    digitVal (Nat.digitChar d) = d := by
  interval_cases d <;> decide

theorem digitChar_mem_digits (d : Nat) (h : d < 10) :
    Nat.digitChar d ∈ ['0', '1', '2', '3', '4', '5', '6', '7', '8', '9'] := by
  interval_cases d <;> decide

theorem toDecDigits_mem (n : Nat) :
    ∀ c ∈ toDecDigits n, c ∈ ['0', '1', '2', '3', '4', '5', '6', '7', '8', '9'] := by
  induction n using Nat.strong_induction_on with
  | _ n ih =>
    by_cases h : n < 10
    · rw [toDecDigits_of_lt n h]
      intro c hc
      simp only [List.mem_singleton] at hc
      exact hc ▸ digitChar_mem_digits n h
    · rw [toDecDigits_of_ge n (Nat.not_lt.mp h)]
      intro c hc
      rcases List.mem_append.mp hc with h1 | h2
      · exact ih (n / 10) (Nat.div_lt_self (by omega) (by omega)) c h1
      · simp only [List.mem_singleton] at h2
        exact h2 ▸ digitChar_mem_digits (n % 10) (Nat.mod_lt n (by omega))

theorem foldl_toDecDigits (n : Nat) :
    ∀ a : Nat,
      (toDecDigits n).foldl (fun a c => 10 * a + digitVal c) a =
        a * 10 ^ (toDecDigits n).length + n := by
  induction n using Nat.strong_induction_on with
  | _ n ih =>
    intro a
    by_cases h : n < 10
    · rw [toDecDigits_of_lt n h]
      simp [digitVal_digitChar n h]
      ring
    · have hge : 10 ≤ n := Nat.not_lt.mp h
      rw [toDecDigits_of_ge n hge, List.foldl_append,
        ih (n / 10) (Nat.div_lt_self (by omega) (by omega)) a]
      simp [digitVal_digitChar (n % 10) (Nat.mod_lt n (by omega))]
      rw [Nat.pow_succ]
      have := Nat.div_add_mod n 10
      ring_nf
      omega

theorem parseDigits_toDecDigits (n : Nat) : parseDigits (toDecDigits n) = n := by
  rw [parseDigits, foldl_toDecDigits n 0]
  simp

theorem parseDigits_repr (n : Nat) : parseDigits (Nat.repr n).data = n := by
  rw [repr_data_eq, parseDigits_toDecDigits]

theorem repr_injective : Function.Injective Nat.repr := by
  intro a b h
  have : parseDigits (Nat.repr a).data = parseDigits (Nat.repr b).data := by rw [h]
  rwa [parseDigits_repr, parseDigits_repr] at this

theorem repr_data_ne_nil (n : Nat) : (Nat.repr n).data ≠ [] := by
  rw [repr_data_eq]; exact toDecDigits_ne_nil n

/-! ## Groundwork lemmas: the alias table -/

theorem containsValue_iff (m : List (String × String)) (v : String) :
    containsValue m v = true ↔ v ∈ m.map fun e => e.2 := by
  simp only [containsValue, List.any_eq_true, beq_iff_eq, List.mem_map]

theorem aliasCandidate_injective (p : String) :
    Function.Injective (aliasCandidate p) := by
  intro i j h
  match i, j with
  | 0, 0 => rfl
  | 0, j + 1 =>
    exfalso
    have hd : p.data = p.data ++ (Nat.repr j).data := by
      have := congrArg String.data h
      simpa [aliasCandidate, String.data_append] using this
    have hlen := congrArg List.length hd
    rw [List.length_append] at hlen
    have hz : (Nat.repr j).data.length = 0 := by omega
    exact repr_data_ne_nil j (List.length_eq_zero.mp hz)
  | i + 1, 0 =>
    exfalso
    have hd : p.data ++ (Nat.repr i).data = p.data := by
      have := congrArg String.data h
      simpa [aliasCandidate, String.data_append] using this
    have hlen := congrArg List.length hd
    rw [List.length_append] at hlen
    have hz : (Nat.repr i).data.length = 0 := by omega
    exact repr_data_ne_nil i (List.length_eq_zero.mp hz)
  | i + 1, j + 1 =>
    have hd : p.data ++ (Nat.repr i).data = p.data ++ (Nat.repr j).data := by
      have := congrArg String.data h
      simpa [aliasCandidate, String.data_append] using this
    have : Nat.repr i = Nat.repr j :=
      String.ext (List.append_cancel_left hd)
    rw [repr_injective this]

theorem nodup_candidates (p : String) (n : Nat) :
    ((List.range n).map (aliasCandidate p)).Nodup :=
  (List.nodup_range n).map (aliasCandidate_injective p)

theorem exists_free_candidate (m : List (String × String)) (p : String) :
    ∃ k, k ≤ m.length ∧ containsValue m (aliasCandidate p k) = false := by
  by_contra hc
  push_neg at hc
  have hall : ∀ k, k ≤ m.length → aliasCandidate p k ∈ m.map fun e => e.2 := by
    intro k hk
    refine (containsValue_iff m _).mp ?_
    cases hcv : containsValue m (aliasCandidate p k) with
    | true => rfl
    | false => exact absurd hcv (hc k hk)
  have hsub : (List.range (m.length + 1)).map (aliasCandidate p) ⊆
      m.map fun e => e.2 := by
    intro x hx
    simp only [List.mem_map, List.mem_range] at hx
    obtain ⟨k, hk, rfl⟩ := hx
    exact hall k (by omega)
  have hle := ((nodup_candidates p (m.length + 1)).subperm hsub).length_le
  rw [List.length_map, List.length_range, List.length_map] at hle
  omega

theorem used_below_le_length (m : List (String × String)) (p : String) (j : Nat)
    (h : ∀ i, i < j → containsValue m (aliasCandidate p i) = true) :
    j ≤ m.length := by
  have hsub : (List.range j).map (aliasCandidate p) ⊆ m.map fun e => e.2 := by
    intro x hx
    simp only [List.mem_map, List.mem_range] at hx
    obtain ⟨k, hk, rfl⟩ := hx
    exact (containsValue_iff m _).mp (h k hk)
  have hle := ((nodup_candidates p j).subperm hsub).length_le
  rw [List.length_map, List.length_range, List.length_map] at hle
  exact hle

theorem findFreeAlias_not_used (m : List (String × String)) (p : String) :
    ∀ (fuel k : Nat),
      (∃ j, k ≤ j ∧ j < k + fuel ∧ containsValue m (aliasCandidate p j) = false) →
      containsValue m (findFreeAlias m p fuel k) = false := by
  intro fuel
  induction fuel with
  | zero =>
    intro k h
    obtain ⟨j, h1, h2, _⟩ := h
    omega
  | succ f ih =>
    intro k h
    obtain ⟨j, h1, h2, h3⟩ := h
    rw [findFreeAlias]
    cases hk : containsValue m (aliasCandidate p k) with
    | false => simp [hk]
    | true =>
      simp only [hk, if_true]
      apply ih
      refine ⟨j, ?_, by omega, h3⟩
      rcases Nat.eq_or_lt_of_le h1 with rfl | hlt
      · rw [h3] at hk; cases hk
      · omega

theorem makePackageAlias_fresh (m : List (String × String)) (p : String) :
    containsValue m (makePackageAlias m p) = false := by
  obtain ⟨k, hk, hfree⟩ := exists_free_candidate m p
  exact findFreeAlias_not_used m p (m.length + 2) 0 ⟨k, by omega, by omega, hfree⟩

theorem findFreeAlias_first (m : List (String × String)) (p : String) :
    ∀ (fuel k j : Nat), k ≤ j → j < k + fuel →
      containsValue m (aliasCandidate p j) = false →
      (∀ i, k ≤ i → i < j → containsValue m (aliasCandidate p i) = true) →
      findFreeAlias m p fuel k = aliasCandidate p j := by
  intro fuel
  induction fuel with
  | zero => intro k j h1 h2 _ _; omega
  | succ f ih =>
    intro k j h1 h2 hfree hused
    rw [findFreeAlias]
    rcases Nat.eq_or_lt_of_le h1 with rfl | hlt
    · simp [hfree]
    · have hk := hused k le_rfl hlt
      simp only [hk, if_true]
      exact ih (k + 1) j hlt (by omega) hfree fun i hi1 hi2 => hused i (by omega) hi2

theorem makePackageAlias_eq_candidate (m : List (String × String)) (p : String)
    (j : Nat) (hfree : containsValue m (aliasCandidate p j) = false)
    (hused : ∀ i, i < j → containsValue m (aliasCandidate p i) = true) :
    makePackageAlias m p = aliasCandidate p j := by
  have hj := used_below_le_length m p j hused
  exact findFreeAlias_first m p (m.length + 2) 0 j (Nat.zero_le j) (by omega)
    hfree fun i _ hi => hused i hi

theorem makePackageAlias_base (m : List (String × String)) (p : String)
    (h : containsValue m p = false) : makePackageAlias m p = p := by
  have := makePackageAlias_eq_candidate m p 0 h (fun i hi => absurd hi (by omega))
  simpa [aliasCandidate] using this

theorem foldl_preserve {α : Type u} {β : Type v} (step : β → α → β) (P : β → Prop)
    (hstep : ∀ b a, P b → P (step b a)) :
    ∀ (l : List α) (b : β), P b → P (l.foldl step b) := by
  intro l
  induction l with
  | nil => intro b hb; exact hb
  | cons x xs ih => intro b hb; exact ih (step b x) (hstep b x hb)

theorem lookupAlias_cons (e : String × String) (m : List (String × String))
    (k : String) :
    lookupAlias (e :: m) k = if e.1 == k then some e.2 else lookupAlias m k := by
  by_cases h : (e.1 == k) = true
  · simp [lookupAlias, List.find?, h]
  · simp only [Bool.not_eq_true] at h
    simp [lookupAlias, List.find?, h]

theorem lookupAlias_append_of_some :
    ∀ (m m' : List (String × String)) (k v : String),
      lookupAlias m k = some v → lookupAlias (m ++ m') k = some v := by
  intro m
  induction m with
  | nil => intro m' k v h; simp [lookupAlias] at h
  | cons e rest ih =>
    intro m' k v h
    rw [lookupAlias_cons] at h
    rw [List.cons_append, lookupAlias_cons]
    by_cases he : (e.1 == k) = true
    · simpa [he] using h
    · simp only [Bool.not_eq_true] at he
      simp only [he, if_false] at h ⊢
      exact ih m' k v h

theorem lookupAlias_append_of_none :
    ∀ (m m' : List (String × String)) (k : String),
      lookupAlias m k = none → lookupAlias (m ++ m') k = lookupAlias m' k := by
  intro m
  induction m with
  | nil => intro m' k _; rfl
  | cons e rest ih =>
    intro m' k h
    rw [lookupAlias_cons] at h
    rw [List.cons_append, lookupAlias_cons]
    by_cases he : (e.1 == k) = true
    · simp [he] at h
    · simp only [Bool.not_eq_true] at he
      simp only [he, if_false] at h ⊢
      exact ih m' k h

theorem lookupAlias_eq_none_iff (m : List (String × String)) (k : String) :
    lookupAlias m k = none ↔ k ∉ m.map fun e => e.1 := by
  induction m with
  | nil => simp [lookupAlias]
  | cons e rest ih =>
    rw [lookupAlias_cons]
    cases he : (e.1 == k) with
    | true =>
      have heq : e.1 = k := beq_iff_eq.mp he
      simp [heq]
    | false =>
      have hne : e.1 ≠ k := by
        intro hh
        rw [hh] at he
        simp at he
      simp only [he, Bool.false_eq_true, if_false, List.map_cons, List.mem_cons]
      rw [ih]
      constructor
      · intro h hmem
        rcases hmem with h1 | h2
        · exact hne h1.symm
        · exact h h2
      · intro h hmem
        exact h (Or.inr hmem)

theorem addAlias_values_nodup (m : List (String × String)) (ip pn : String)
    (h : (m.map fun e => e.2).Nodup) :
    ((addAlias m ip pn).map fun e => e.2).Nodup := by
  cases hl : lookupAlias m ip with
  | some v => simpa [addAlias, hl] using h
  | none =>
    have hfresh := makePackageAlias_fresh m pn
    have hnotmem : makePackageAlias m pn ∉ m.map fun e => e.2 := by
      intro hmem
      rw [(containsValue_iff m _).mpr hmem] at hfresh
      exact Bool.noConfusion hfresh
    simp only [addAlias, hl, List.map_append, List.map_cons, List.map_nil]
    rw [List.nodup_append]
    refine ⟨h, List.nodup_singleton _, ?_⟩
    intro x hx hx2
    simp only [List.mem_singleton] at hx2
    exact hnotmem (hx2 ▸ hx)

theorem addAlias_keys_nodup (m : List (String × String)) (ip pn : String)
    (h : (m.map fun e => e.1).Nodup) :
    ((addAlias m ip pn).map fun e => e.1).Nodup := by
  cases hl : lookupAlias m ip with
  | some v => simpa [addAlias, hl] using h
  | none =>
    have hnotmem := (lookupAlias_eq_none_iff m ip).mp hl
    simp only [addAlias, hl, List.map_append, List.map_cons, List.map_nil]
    rw [List.nodup_append]
    refine ⟨h, List.nodup_singleton _, ?_⟩
    intro x hx hx2
    simp only [List.mem_singleton] at hx2
    exact hnotmem (hx2 ▸ hx)

theorem addAlias_inv (m : List (String × String)) (ip pn : String)
    (h : aliasTableInv m) : aliasTableInv (addAlias m ip pn) :=
  ⟨addAlias_values_nodup m ip pn h.1, addAlias_keys_nodup m ip pn h.2⟩

theorem addTypeAliases_inv (m : List (String × String)) (spec : TypeInfo)
    (h : aliasTableInv m) : aliasTableInv (addTypeAliases m spec) := by
  unfold addTypeAliases
  refine foldl_preserve _ aliasTableInv ?_ _ _ (addAlias_inv _ _ _ h)
  intro b meth hb
  refine foldl_preserve _ aliasTableInv ?_ _ _ hb
  intro b2 arg hb2
  cases ha : (arg.importPath == "") with
  | true => simpa [ha] using hb2
  | false =>
    simp only [ha, Bool.false_eq_true, if_false]
    exact addAlias_inv _ _ _ hb2

theorem calcAliasesMain_inv (src : SourceInfo) :
    aliasTableInv (calcAliasesMain src) := by
  unfold calcAliasesMain
  refine foldl_preserve _ aliasTableInv ?_ _ _ ⟨List.nodup_nil, List.nodup_nil⟩
  intro m specs hm
  exact foldl_preserve _ aliasTableInv
    (fun m2 spec hm2 => addTypeAliases_inv m2 spec hm2) specs m hm

theorem addInitAlias_keys_nodup (m : List (String × String)) (ip : String)
    (h : (m.map fun e => e.1).Nodup) :
    ((addInitAlias m ip).map fun e => e.1).Nodup := by
  cases hl : lookupAlias m ip with
  | some v => simpa [addInitAlias, hl] using h
  | none =>
    have hnotmem := (lookupAlias_eq_none_iff m ip).mp hl
    simp only [addInitAlias, hl, List.map_append, List.map_cons, List.map_nil]
    rw [List.nodup_append]
    refine ⟨h, List.nodup_singleton _, ?_⟩
    intro x hx hx2
    simp only [List.mem_singleton] at hx2
    exact hnotmem (hx2 ▸ hx)

theorem addInitAlias_lookup_some (m : List (String × String)) (ip k v : String)
    (h : lookupAlias m k = some v) :
    lookupAlias (addInitAlias m ip) k = some v := by
  cases hl : lookupAlias m ip with
  | some w => simpa [addInitAlias, hl] using h
  | none =>
    simp only [addInitAlias, hl]
    exact lookupAlias_append_of_some m _ k v h

theorem initFold_some :
    ∀ (l : List String) (m : List (String × String)) (k v : String),
      lookupAlias m k = some v →
      lookupAlias (l.foldl addInitAlias m) k = some v := by
  intro l
  induction l with
  | nil => intro m k v h; exact h
  | cons hd tl ih =>
    intro m k v h
    exact ih _ k v (addInitAlias_lookup_some m hd k v h)

theorem initFold_inserts :
    ∀ (l : List String) (m : List (String × String)) (ip : String),
      ip ∈ l → lookupAlias m ip = none →
      lookupAlias (l.foldl addInitAlias m) ip = some "_" := by
  intro l
  induction l with
  | nil => intro m ip hmem _; exact absurd hmem (List.not_mem_nil ip)
  | cons hd tl ih =>
    intro m ip hmem hnone
    simp only [List.foldl_cons]
    by_cases heq : hd = ip
    · subst heq
      have hstep : addInitAlias m hd = m ++ [(hd, "_")] := by
        simp [addInitAlias, hnone]
      have hlook : lookupAlias (addInitAlias m hd) hd = some "_" := by
        rw [hstep, lookupAlias_append_of_none m _ hd hnone, lookupAlias_cons]
        simp
      exact initFold_some tl _ hd "_" hlook
    · have hmemtl : ip ∈ tl := by
        rcases List.mem_cons.mp hmem with h1 | h1
        · exact absurd h1.symm heq
        · exact h1
      have hnone2 : lookupAlias (addInitAlias m hd) ip = none := by
        cases hl : lookupAlias m hd with
        | some w => simpa [addInitAlias, hl] using hnone
        | none =>
          simp only [addInitAlias, hl]
          rw [lookupAlias_append_of_none m _ ip hnone, lookupAlias_cons]
          have : (hd == ip) = false := by
            cases hb : (hd == ip) with
            | true => exact absurd (beq_iff_eq.mp hb) heq
            | false => rfl
          simp [this, lookupAlias]
      exact ih _ ip hmemtl hnone2

/-! ## Claim C1 -/

/-- C1 counterexample: the claimed invariant "aliases are unique among all
entries of the table" fails on the code.  With no controllers or test
suites and the two init-import paths `example.com/a` and `example.com/b`,
`calcImportAliases` assigns the discard alias `"_"` to both entries, so the
alias values of the table are not pairwise distinct. -/
theorem calcImportAliases_duplicate_discard_aliases :
    calcImportAliases ⟨[], [], ["example.com/a", "example.com/b"]⟩ =
      [("example.com/a", "_"), ("example.com/b", "_")]
    ∧ ¬ ((calcImportAliases ⟨[], [], ["example.com/a", "example.com/b"]⟩).map
        fun e => e.2).Nodup := by
  constructor
  · rfl
  · decide

/-- C1 (amended): `calcImportAliases` assigns every import path exactly one
alias (keys of the table are pairwise distinct); the aliases chosen during
the controller/test-suite phase (`calcAliasesMain`) are pairwise distinct;
an init-import-set path with no alias already assigned receives the discard
alias `"_"` (these discard entries may repeat, which is the one departure
from the claim as stated); `makePackageAlias` keeps the unsuffixed package
name when it is unused, and otherwise returns the first unused candidate in
the scan `pkgName`, `pkgName ++ "0"`, `pkgName ++ "1"`, …, so the chosen
alias is never already a value of the table. -/
theorem calcImportAliases_alias_assignment :
    (∀ src : SourceInfo, ((calcImportAliases src).map fun e => e.1).Nodup)
    ∧ (∀ src : SourceInfo, ((calcAliasesMain src).map fun e => e.2).Nodup)
    ∧ (∀ src : SourceInfo, ∀ ip ∈ src.initImportPaths,
        lookupAlias (calcAliasesMain src) ip = none →
        lookupAlias (calcImportAliases src) ip = some "_")
    ∧ (∀ (m : List (String × String)) (p : String),
        containsValue m p = false → makePackageAlias m p = p)
    ∧ (∀ (m : List (String × String)) (p : String) (j : Nat),
        containsValue m (aliasCandidate p j) = false →
        (∀ i, i < j → containsValue m (aliasCandidate p i) = true) →
        makePackageAlias m p = aliasCandidate p j)
    ∧ (∀ (m : List (String × String)) (p : String),
        containsValue m (makePackageAlias m p) = false) := by
  refine ⟨?_, ?_, ?_, ?_, ?_, ?_⟩
  · intro src
    exact foldl_preserve _ (fun m => (m.map fun e => e.1).Nodup)
      (fun m ip h => addInitAlias_keys_nodup m ip h) _ _
      (calcAliasesMain_inv src).2
  · intro src
    exact (calcAliasesMain_inv src).1
  · intro src ip hmem hnone
    exact initFold_inserts src.initImportPaths (calcAliasesMain src) ip hmem hnone
  · intro m p h
    exact makePackageAlias_base m p h
  · intro m p j hfree hused
    exact makePackageAlias_eq_candidate m p j hfree hused
  · intro m p
    exact makePackageAlias_fresh m p

/-- C1 witness: the amended theorem applied at concrete inputs — a lone
init-import path receives `"_"`, and `makePackageAlias` keeps an unused
package name and suffixes a used one with `"0"`. -/
theorem calcImportAliases_alias_assignment_witness :
    lookupAlias (calcImportAliases ⟨[], [], ["example.com/q"]⟩) "example.com/q" =
      some "_"
    ∧ makePackageAlias [("a/x", "x")] "y" = "y"
    ∧ makePackageAlias [("a/x", "x")] "x" = "x0" := by
  refine ⟨?_, ?_, ?_⟩
  · exact calcImportAliases_alias_assignment.2.2.1 ⟨[], [], ["example.com/q"]⟩
      "example.com/q" (by decide) (by decide)
  · exact calcImportAliases_alias_assignment.2.2.2.1 [("a/x", "x")] "y" (by decide)
  · exact calcImportAliases_alias_assignment.2.2.2.2.1 [("a/x", "x")] "x" 1
      (by decide) (fun i hi => by interval_cases i; decide)

/-! ## Groundwork lemmas: the fetch-and-retry loop -/

theorem buildLoop_trace (env : BuildEnv) (bin : String) :
    ∀ (fuel k : Nat) (gotten : List String),
      (buildLoop env bin fuel k gotten).2.Nodup ∧
        ∀ p ∈ (buildLoop env bin fuel k gotten).2, p ∉ gotten := by
  intro fuel
  induction fuel with
  | zero => intro k gotten; simp [buildLoop]
  | succ f ih =>
    intro k gotten
    simp only [buildLoop]
    cases hbo : env.buildOutput k with
    | none => simp
    | some out =>
      simp only []
      cases hmp : findMissingPackage out.data with
      | none => simp [hmp]
      | some pkg =>
        simp only [hmp]
        by_cases hg : pkg ∈ gotten
        · simp [hg]
        · cases hf : env.fetchOk k pkg with
          | false => simp [hg, hf]
          | true =>
            simp only [hg, if_false, hf, if_true]
            obtain ⟨ihnd, ihout⟩ := ih (k + 1) (gotten ++ [pkg])
            constructor
            · refine List.Nodup.cons ?_ ihnd
              intro hmem
              exact (ihout pkg hmem) (List.mem_append_right gotten (List.mem_singleton_self pkg))
            · intro p hp
              rcases List.mem_cons.mp hp with rfl | hp2
              · exact hg
              · intro hpg
                exact (ihout p hp2) (List.mem_append_left [pkg] hpg)

theorem buildLoop_terminates (env : BuildEnv) (bin : String) (P : List String)
    (hP : ∀ k out pkg, env.buildOutput k = some out →
      findMissingPackage out.data = some pkg → pkg ∈ P) :
    ∀ (fuel k : Nat) (gotten : List String), gotten.Nodup →
      (∀ p ∈ gotten, p ∈ P) → P.length + 1 ≤ fuel + gotten.length →
      (buildLoop env bin fuel k gotten).1.isSome := by
  intro fuel
  induction fuel with
  | zero =>
    intro k gotten hnd hsub hlen
    have := (hnd.subperm hsub).length_le
    omega
  | succ f ih =>
    intro k gotten hnd hsub hlen
    simp only [buildLoop]
    cases hbo : env.buildOutput k with
    | none => simp
    | some out =>
      simp only []
      cases hmp : findMissingPackage out.data with
      | none => simp [hmp]
      | some pkg =>
        simp only [hmp]
        by_cases hg : pkg ∈ gotten
        · simp [hg]
        · cases hf : env.fetchOk k pkg with
          | false => simp [hg, hf]
          | true =>
            simp only [hg, if_false, hf, if_true]
            apply ih (k + 1) (gotten ++ [pkg])
            · rw [List.nodup_append]
              refine ⟨hnd, List.nodup_singleton _, ?_⟩
              intro x hx hx2
              simp only [List.mem_singleton] at hx2
              exact hg (hx2 ▸ hx)
            · intro p hp
              rcases List.mem_append.mp hp with h1 | h1
              · exact hsub p h1
              · simp only [List.mem_singleton] at h1
                exact h1 ▸ hP k out pkg hbo hmp
            · rw [List.length_append, List.length_singleton]
              omega

/-! ## Claim C2 -/

/-- C2: the fetch-and-retry loop of `Build` fetches each distinct missing
package at most once per build attempt (the `go get` trace is
duplicate-free); when every reported missing package comes from a finite
universe `P` — as it does, the reports being drawn from the imports of the
program — the loop terminates within `P.length + 1` build attempts and
`Build` returns; and the loop stops with a structured `CompileError` as soon
as the diagnostic output reports a package already in the attempted set, or
the `go get` for a fresh package fails. -/
theorem build_fetch_retry :
    (∀ (env : BuildEnv) (bin : String) (fuel k : Nat) (gotten : List String),
      (buildLoop env bin fuel k gotten).2.Nodup)
    ∧ (∀ (env : BuildEnv) (bin : String) (P : List String),
        (∀ k out pkg, env.buildOutput k = some out →
          findMissingPackage out.data = some pkg → pkg ∈ P) →
        (Build env bin (P.length + 1)).isSome)
    ∧ (∀ (env : BuildEnv) (bin : String) (fuel k : Nat) (gotten : List String)
        (out : String) (pkg : String),
        env.buildOutput k = some out → findMissingPackage out.data = some pkg →
        pkg ∈ gotten →
        buildLoop env bin (fuel + 1) k gotten =
          (some (.failure (newCompileError env.cfg out)), []))
    ∧ (∀ (env : BuildEnv) (bin : String) (fuel k : Nat) (gotten : List String)
        (out : String) (pkg : String),
        env.buildOutput k = some out → findMissingPackage out.data = some pkg →
        pkg ∉ gotten → env.fetchOk k pkg = false →
        buildLoop env bin (fuel + 1) k gotten =
          (some (.failure (newCompileError env.cfg out)), [pkg])) := by
  refine ⟨?_, ?_, ?_, ?_⟩
  · intro env bin fuel k gotten
    exact (buildLoop_trace env bin fuel k gotten).1
  · intro env bin P hP
    unfold Build
    cases hps : env.psResult with
    | error e => simp
    | ok u =>
      have hterm := buildLoop_terminates env bin P hP (P.length + 1) 0 []
        List.nodup_nil (by intro p hp; exact absurd hp (List.not_mem_nil p))
        (by simp)
      cases hloop : (buildLoop env bin (P.length + 1) 0 []).1 with
      | none => rw [hloop] at hterm; exact absurd hterm (by simp)
      | some lr => cases lr <;> simp [hloop]
  · intro env bin fuel k gotten out pkg hbo hmp hg
    simp [buildLoop, hbo, hmp, hg]
  · intro env bin fuel k gotten out pkg hbo hmp hg hf
    simp [buildLoop, hbo, hmp, hg, hf]

/-- C2 witness: `Build` returns on a first-attempt success, and the loop
stops with a failure when the output reports a package already attempted. -/
theorem build_fetch_retry_witness :
    (Build ⟨.ok (), fun _ => none, fun _ _ => true, ⟨"", id, fun _ => .ok []⟩⟩
      "b" 1).isSome
    ∧ buildLoop
        ⟨.ok (), fun _ => some "cannot find package \"p\"", fun _ _ => true,
          ⟨"", id, fun _ => .ok []⟩⟩ "b" 1 0 ["p"] =
      (some (.failure (newCompileError ⟨"", id, fun _ => .ok []⟩
        "cannot find package \"p\"")), []) := by
  constructor
  · exact build_fetch_retry.2.1
      ⟨.ok (), fun _ => none, fun _ _ => true, ⟨"", id, fun _ => .ok []⟩⟩
      "b" [] (fun k out pkg h _ => by exact absurd h (by simp))
  · exact build_fetch_retry.2.2.1
      ⟨.ok (), fun _ => some "cannot find package \"p\"", fun _ _ => true,
        ⟨"", id, fun _ => .ok []⟩⟩
      "b" 0 0 ["p"] "cannot find package \"p\"" "p" rfl (by decide) (by decide)

/-! ## Claim C10 -/

/-- C10: on every non-fatal return path, the two results of `Build` are mutually
exclusive and exhaustive — it returns a (non-nil) `App` exactly when the
returned compile error is nil. -/
theorem Build_app_iff_no_error :
    ∀ (env : BuildEnv) (bin : String) (fuel : Nat)
      (r : Option App × Option GospfError),
      Build env bin fuel = some r → (r.1.isSome ↔ r.2 = none) := by
  intro env bin fuel r h
  unfold Build at h
  cases hps : env.psResult with
  | error e =>
    rw [hps] at h
    simp only [Option.some_inj] at h
    subst h
    simp
  | ok u =>
    rw [hps] at h
    simp only at h
    cases hloop : (buildLoop env bin fuel 0 []).1 with
    | none => rw [hloop] at h; exact absurd h (by simp)
    | some lr =>
      rw [hloop] at h
      cases lr with
      | success a =>
        simp only [Option.some_inj] at h
        subst h
        simp
      | failure e =>
        simp only [Option.some_inj] at h
        subst h
        simp

/-- C10 witness: a successful single-attempt build yields an `App` and a nil
error, and the equivalence of the theorem holds at that return value. -/
theorem Build_app_iff_no_error_witness :
    Build ⟨.ok (), fun _ => none, fun _ _ => true, ⟨"", id, fun _ => .ok []⟩⟩
        "b" 1 = some (some (NewApp "b"), none)
    ∧ ((some (NewApp "b") : Option App).isSome ↔
        (none : Option GospfError) = none) := by
  constructor
  · rfl
  · exact Build_app_iff_no_error
      ⟨.ok (), fun _ => none, fun _ _ => true, ⟨"", id, fun _ => .ok []⟩⟩
      "b" 1 (some (NewApp "b"), none) rfl

/-! ## Claim C3 -/

/-- C3: the version precedence of `getAppVersion`.  A nonempty
`APP_VERSION` wins outright, regardless of any version-control state; with
it unset, a present git checkout (git binary available, `.git` a directory)
and a successful describe yield the trimmed describe output with the
`"git-"` prefix; with it unset and no version-control metadata (no git
binary, `.git` absent, or `.git` not a directory), the version is empty. -/
theorem getAppVersion_precedence :
    (∀ e : VersionEnv, e.appVersion ≠ "" → getAppVersion e = .ok e.appVersion)
    ∧ (∀ (e : VersionEnv) (out : String), e.appVersion = "" →
        e.gitOnPath = true → e.statGitDir = .ok true →
        e.describeOutput = some out →
        getAppVersion e = .ok ("git-" ++ trimSpace out))
    ∧ (∀ e : VersionEnv, e.appVersion = "" →
        (e.gitOnPath = false ∨ e.statGitDir = .errNotExist ∨
          e.statGitDir = .ok false) →
        getAppVersion e = .ok "") := by
  refine ⟨?_, ?_, ?_⟩
  · intro e h
    have hb : (e.appVersion != "") = true := by
      cases hx : (e.appVersion != "") with
      | true => rfl
      | false => exact absurd (by simpa using hx) h
    simp [getAppVersion, hb]
  · intro e out hv hg hs hd
    have hb : (e.appVersion != "") = false := by simp [hv]
    simp [getAppVersion, hb, hg, hs, hd]
  · intro e hv hcase
    have hb : (e.appVersion != "") = false := by simp [hv]
    rcases hcase with h | h | h <;> simp [getAppVersion, hb, h]

/-- C3 witness: the three precedence branches at concrete environments. -/
theorem getAppVersion_precedence_witness :
    getAppVersion ⟨"1.2.3", true, .ok true, some "abc"⟩ = .ok "1.2.3"
    ∧ getAppVersion ⟨"", true, .ok true, some "abc123\n"⟩ = .ok "git-abc123"
    ∧ getAppVersion ⟨"", false, .errNotExist, none⟩ = .ok "" := by
  refine ⟨?_, ?_, ?_⟩
  · exact getAppVersion_precedence.1 ⟨"1.2.3", true, .ok true, some "abc"⟩
      (by decide)
  · have h := getAppVersion_precedence.2.1 ⟨"", true, .ok true, some "abc123\n"⟩
      "abc123\n" rfl rfl rfl rfl
    have he : ("git-" ++ trimSpace "abc123\n") = "git-abc123" := by decide
    rw [he] at h
    exact h
  · exact getAppVersion_precedence.2.2 ⟨"", false, .errNotExist, none⟩ rfl
      (Or.inl rfl)

/-! ## Claim C4 -/

/-- C4: the claim "getAppVersion does not fault for every outcome of the
version-control metadata check" is right about the intent but wrong about
the code.  When `APP_VERSION` is unset, `git` is on the PATH and
`os.Stat(BasePath/.git)` fails with an error that is not `IsNotExist`
(e.g. a permission error), the guard
`(err != nil && os.IsNotExist(err)) || !info.IsDir()` evaluates
`info.IsDir()` on a nil `FileInfo` and panics instead of degrading to an
empty version string. -/
theorem getAppVersion_nil_deref_on_stat_error :
    getAppVersion ⟨"", true, .errOther, none⟩ =
      .error "runtime error: invalid memory address or nil pointer dereference" := by
  rfl

/-! ## Groundwork lemma: the favicon suppression guard -/

theorem favicon_cond_false (flag : Bool) (p : String)
    (h : ¬(flag = true ∧ p = "/favicon.ico")) :
    (flag && (p == "/favicon.ico")) = false := by
  cases hf : flag with
  | false => rfl
  | true =>
    subst hf
    have hp : p ≠ "/favicon.ico" := fun hh => h ⟨rfl, hh⟩
    cases hb : (p == "/favicon.ico") with
    | false => rfl
    | true => exact absurd (beq_iff_eq.mp hb) hp

/-! ## Claim C6 -/

/-- C6: for every inbound request other than the suppressed favicon class
in the error state, `ServeHTTP` calls `watcher.Notify()` first, and a
Notify error renders the structured error page and stops — such a request
is never forwarded, neither through the reverse proxy nor through the
websocket tunnel. -/
theorem serveHTTP_notify_first :
    ∀ (flag : Bool) (urlPath upgradeHeader : String)
      (notifyResult : Option GospfError),
      ¬(flag = true ∧ urlPath = "/favicon.ico") →
      (serveHTTP flag urlPath upgradeHeader notifyResult).notifyCalled = true
      ∧ ∀ e, notifyResult = some e →
          (serveHTTP flag urlPath upgradeHeader notifyResult).action =
            .renderedError e
          ∧ (serveHTTP flag urlPath upgradeHeader notifyResult).action ≠
              .proxiedHTTP
          ∧ (serveHTTP flag urlPath upgradeHeader notifyResult).action ≠
              .proxiedWebsocket := by
  intro flag p hdr notify h
  have hcond := favicon_cond_false flag p h
  refine ⟨?_, ?_⟩
  · cases notify <;> simp [serveHTTP, hcond]
  · intro e he
    subst he
    refine ⟨?_, ?_, ?_⟩ <;> simp [serveHTTP, hcond]

/-- C6 witness: a non-favicon request with a failing Notify invokes Notify
and renders the error page. -/
theorem serveHTTP_notify_first_witness :
    (serveHTTP false "/x" "" (some { title := "t" })).notifyCalled = true
    ∧ (serveHTTP false "/x" "" (some { title := "t" })).action =
        .renderedError { title := "t" } := by
  have h := serveHTTP_notify_first false "/x" "" (some { title := "t" })
    (by intro hh; exact Bool.noConfusion hh.1)
  exact ⟨h.1, (h.2 { title := "t" } rfl).1⟩

/-! ## Claim C7 -/

/-- C7: the `lastRequestHadError` flag is set exactly when the last Notify
call errored and cleared when one succeeds; while it is set, a
`/favicon.ico` request is silenced — no Notify, no proxying, no error
render, flag untouched — while every other request still runs the full
Notify-then-render-or-proxy sequence; and with the flag clear even a
favicon request is served normally. -/
theorem serveHTTP_error_flag :
    (∀ (hdr : String) (notify : Option GospfError),
        serveHTTP true "/favicon.ico" hdr notify = ⟨true, false, .silenced⟩)
    ∧ (∀ (flag : Bool) (p hdr : String) (e : GospfError),
        ¬(flag = true ∧ p = "/favicon.ico") →
        (serveHTTP flag p hdr (some e)).flagAfter = true)
    ∧ (∀ (flag : Bool) (p hdr : String),
        ¬(flag = true ∧ p = "/favicon.ico") →
        (serveHTTP flag p hdr none).flagAfter = false)
    ∧ (∀ (p hdr : String) (notify : Option GospfError), p ≠ "/favicon.ico" →
        (serveHTTP true p hdr notify).notifyCalled = true
        ∧ (∀ e, notify = some e →
            (serveHTTP true p hdr notify).action = .renderedError e)
        ∧ (notify = none →
            (serveHTTP true p hdr notify).action =
              if equalFold hdr "websocket" then .proxiedWebsocket
              else .proxiedHTTP))
    ∧ (∀ (hdr : String) (notify : Option GospfError),
        (serveHTTP false "/favicon.ico" hdr notify).notifyCalled = true) := by
  refine ⟨?_, ?_, ?_, ?_, ?_⟩
  · intro hdr notify
    simp [serveHTTP]
  · intro flag p hdr e h
    simp [serveHTTP, favicon_cond_false flag p h]
  · intro flag p hdr h
    simp [serveHTTP, favicon_cond_false flag p h]
  · intro p hdr notify hp
    have hcond := favicon_cond_false true p (fun hh => hp hh.2)
    refine ⟨?_, ?_, ?_⟩
    · cases notify <;> simp [serveHTTP, hcond]
    · intro e he
      subst he
      simp [serveHTTP, hcond]
    · intro he
      subst he
      simp [serveHTTP, hcond]
  · intro hdr notify
    cases notify <;> simp [serveHTTP]

/-- C7 witness: the flag transitions and the silencing at concrete
requests. -/
theorem serveHTTP_error_flag_witness :
    serveHTTP true "/favicon.ico" "" none = ⟨true, false, .silenced⟩
    ∧ (serveHTTP false "/a" "" (some { title := "t" })).flagAfter = true
    ∧ (serveHTTP true "/a" "" none).flagAfter = false
    ∧ (serveHTTP true "/a" "" (some { title := "t" })).action =
        .renderedError { title := "t" } := by
  refine ⟨?_, ?_, ?_, ?_⟩
  · exact serveHTTP_error_flag.1 "" none
  · exact serveHTTP_error_flag.2.1 false "/a" "" { title := "t" }
      (by intro hh; exact Bool.noConfusion hh.1)
  · exact serveHTTP_error_flag.2.2.1 true "/a" "" (by decide)
  · exact ((serveHTTP_error_flag.2.2.2.1 "/a" "" (some { title := "t" })
      (by decide)).2.1 { title := "t" } rfl)

/-! ## Claim C8 -/

/-- C8: `Refresh` kills the prior supervised app strictly before running
the build; and whenever the rebuild fails — `Build` returns an error or the
new binary fails to start — `Refresh` returns that error with no running
app left in the harness state, while a full success leaves exactly the new
app of the new build running on the harness port. -/
theorem refresh_spec :
    ∀ (prior : Option AppProc) (buildRes : Option App × Option GospfError)
      (startErr : Option String) (port : Nat) (r : RefreshOutcome),
      refresh prior buildRes startErr port = some r →
      (∀ a, prior = some a → ∃ ok rest,
          r.events = .killedPrior a.binName :: RefreshEvent.ranBuild ok :: rest)
      ∧ (r.err ≠ none → ∀ ap, r.app = some ap → ap.running = false)
      ∧ (r.err = none → ∃ a, buildRes.1 = some a ∧
          r.app = some ⟨a.binName, port, true⟩) := by
  intro prior buildRes startErr port r h
  obtain ⟨ba, be⟩ := buildRes
  cases be with
  | some e =>
    simp only [refresh, Option.some_inj] at h
    subst h
    refine ⟨?_, ?_, ?_⟩
    · intro a hp
      subst hp
      exact ⟨false, [], rfl⟩
    · intro _ ap hap
      cases ba with
      | none => simp at hap
      | some a2 =>
        simp only [Option.map_some', Option.some_inj] at hap
        subst hap
        rfl
    · intro hE
      exact absurd hE (by simp)
  | none =>
    cases ba with
    | none => simp [refresh] at h
    | some a =>
      cases startErr with
      | none =>
        simp only [refresh, Option.some_inj] at h
        subst h
        refine ⟨?_, ?_, ?_⟩
        · intro a2 hp
          subst hp
          exact ⟨true, [.startedChild true], rfl⟩
        · intro hE
          exact absurd rfl hE
        · intro _
          exact ⟨a, rfl, rfl⟩
      | some msg =>
        simp only [refresh, Option.some_inj] at h
        subst h
        refine ⟨?_, ?_, ?_⟩
        · intro a2 hp
          subst hp
          exact ⟨true, [.startedChild false], rfl⟩
        · intro _ ap hap
          simp only [Option.some_inj] at hap
          subst hap
          rfl
        · intro hE
          exact absurd hE (by simp)

/-- C8 witness: a full kill-rebuild-restart cycle at concrete inputs — the
prior app is killed first, then the build runs, and on success the new
app replaces it, running on the harness port. -/
theorem refresh_spec_witness :
    (∃ ok rest,
      ([.killedPrior "old", .ranBuild true, .startedChild true] :
          List RefreshEvent) =
        .killedPrior "old" :: RefreshEvent.ranBuild ok :: rest)
    ∧ ∃ a, (some (NewApp "new"), (none : Option GospfError)).1 = some a ∧
        (some ⟨"new", 9000, true⟩ : Option AppProc) =
          some ⟨a.binName, 9000, true⟩ := by
  have h := refresh_spec (some ⟨"old", 1, true⟩) (some (NewApp "new"), none)
    none 9000
    ⟨some ⟨"new", 9000, true⟩, none,
      [.killedPrior "old", .ranBuild true, .startedChild true]⟩ rfl
  exact ⟨h.1 ⟨"old", 1, true⟩ rfl, h.2.2 rfl⟩

/-! ## Groundwork lemmas: the websocket tunnel -/

theorem ws_invariant :
    ∀ s, WsReachable s →
      s.chanBuf + (if s.main = .closedConns then 1 else 0) = sentCount s := by
  intro s h
  unfold WsReachable at h
  induction h with
  | refl => simp [wsInit, sentCount]
  | tail hsteps hstep ih =>
    cases hstep with
    | finishC2B ht =>
      simp only [sentCount] at ih ⊢
      simp [ht] at ih ⊢
      omega
    | finishB2C ht =>
      simp only [sentCount] at ih ⊢
      simp [ht] at ih ⊢
      omega
    | sendC2B ht hbuf =>
      simp only [sentCount] at ih ⊢
      simp [ht] at ih ⊢
      omega
    | sendB2C ht hbuf =>
      simp only [sentCount] at ih ⊢
      simp [ht] at ih ⊢
      omega
    | recvAndClose ht hbuf =>
      simp only [sentCount] at ih ⊢
      simp [ht] at ih ⊢
      omega

theorem ws_send_never_blocks :
    ∀ s, WsReachable s →
      (s.clientToBackend = .finished → s.chanBuf < 2) ∧
        (s.backendToClient = .finished → s.chanBuf < 2) := by
  intro s h
  have hinv := ws_invariant s h
  constructor <;> intro hc
  · by_cases hb : s.backendToClient = .sent <;>
      by_cases hm : s.main = .closedConns <;>
        simp [sentCount, hc, hb, hm] at hinv <;> omega
  · by_cases hb : s.clientToBackend = .sent <;>
      by_cases hm : s.main = .closedConns <;>
        simp [sentCount, hc, hb, hm] at hinv <;> omega

theorem ws_close_enabled :
    ∀ s, WsReachable s → s.main = .waitingRecv → 1 ≤ sentCount s →
      WsStep s { s with main := .closedConns, chanBuf := s.chanBuf - 1 } := by
  intro s h hm hsent
  have hinv := ws_invariant s h
  refine WsStep.recvAndClose s hm ?_
  simp [hm] at hinv
  omega

theorem ws_stuck_done :
    ∀ s, WsReachable s → (∀ t, ¬ WsStep s t) →
      s.clientToBackend = .sent ∧ s.backendToClient = .sent ∧
        s.main = .closedConns := by
  intro s h hstuck
  have hsend := ws_send_never_blocks s h
  have hinv := ws_invariant s h
  have hc1 : s.clientToBackend = .sent := by
    cases hc : s.clientToBackend with
    | copying => exact absurd (WsStep.finishC2B s hc) (hstuck _)
    | finished => exact absurd (WsStep.sendC2B s hc (hsend.1 hc)) (hstuck _)
    | sent => rfl
  have hc2 : s.backendToClient = .sent := by
    cases hc : s.backendToClient with
    | copying => exact absurd (WsStep.finishB2C s hc) (hstuck _)
    | finished => exact absurd (WsStep.sendB2C s hc (hsend.2 hc)) (hstuck _)
    | sent => rfl
  have hm : s.main = .closedConns := by
    cases hm2 : s.main with
    | closedConns => rfl
    | waitingRecv =>
      have hbuf : 1 ≤ s.chanBuf := by
        simp [sentCount, hc1, hc2, hm2] at hinv
        omega
      exact absurd (WsStep.recvAndClose s hm2 hbuf) (hstuck _)
  exact ⟨hc1, hc2, hm⟩

theorem ws_measure_decreases :
    ∀ s t, WsStep s t → wsMeasure t < wsMeasure s := by
  intro s t hstep
  cases hstep with
  | finishC2B hu => simp [wsMeasure, copierWeight, hu]
  | finishB2C hu => simp [wsMeasure, copierWeight, hu]
  | sendC2B hu hbuf => simp [wsMeasure, copierWeight, hu]
  | sendB2C hu hbuf => simp [wsMeasure, copierWeight, hu]
  | recvAndClose hu hbuf => simp [wsMeasure, copierWeight, hu]

/-! ## Claim C9 -/

/-- C9: in the tunnel system spawned by `proxyWebsocket` — two concurrent
copy loops (client→backend, backend→client), each reporting into the
2-buffered channel, and the parent performing one receive whose return
closes both connections — (i) a copier that finished its copy can always
complete its channel send (the buffer is never full then: no send blocks);
(ii) as soon as either direction has signalled, the receive-and-close of
the parent is enabled — first-to-finish wins; (iii) a reachable
state with no enabled step has both copiers exited and the connections
closed, so no goroutine is left blocked indefinitely; (iv) every step
strictly decreases a natural measure, so every execution ends within
`wsMeasure wsInit = 5` steps — teardown happens in bounded time. -/
theorem proxyWebsocket_tunnel :
    (∀ s, WsReachable s →
      (s.clientToBackend = .finished → s.chanBuf < 2) ∧
        (s.backendToClient = .finished → s.chanBuf < 2))
    ∧ (∀ s, WsReachable s → s.main = .waitingRecv → 1 ≤ sentCount s →
        WsStep s { s with main := .closedConns, chanBuf := s.chanBuf - 1 })
    ∧ (∀ s, WsReachable s → (∀ t, ¬ WsStep s t) →
        s.clientToBackend = .sent ∧ s.backendToClient = .sent ∧
          s.main = .closedConns)
    ∧ (∀ s t, WsStep s t → wsMeasure t < wsMeasure s) :=
  ⟨ws_send_never_blocks, ws_close_enabled, ws_stuck_done, ws_measure_decreases⟩

/-- C9 witness: a complete concrete execution — backend→client finishes
first, the parent receives and closes both connections, the other copier
drains later — reaching the terminal state, which is stuck exactly with
both copiers exited and the connections closed. -/
theorem proxyWebsocket_tunnel_witness :
    WsReachable ⟨.sent, .sent, .closedConns, 1⟩
    ∧ (⟨.sent, .sent, .closedConns, 1⟩ : WsState).clientToBackend = .sent
    ∧ (⟨.sent, .sent, .closedConns, 1⟩ : WsState).backendToClient = .sent
    ∧ (⟨.sent, .sent, .closedConns, 1⟩ : WsState).main = .closedConns := by
  have h0 : WsReachable wsInit := Relation.ReflTransGen.refl
  have h1 : WsReachable ⟨.finished, .copying, .waitingRecv, 0⟩ :=
    Relation.ReflTransGen.tail h0 (WsStep.finishC2B wsInit rfl)
  have h2 : WsReachable ⟨.sent, .copying, .waitingRecv, 1⟩ :=
    Relation.ReflTransGen.tail h1
      (WsStep.sendC2B ⟨.finished, .copying, .waitingRecv, 0⟩ rfl (by decide))
  have h3 : WsReachable ⟨.sent, .copying, .closedConns, 0⟩ :=
    Relation.ReflTransGen.tail h2
      (WsStep.recvAndClose ⟨.sent, .copying, .waitingRecv, 1⟩ rfl (by decide))
  have h4 : WsReachable ⟨.sent, .finished, .closedConns, 0⟩ :=
    Relation.ReflTransGen.tail h3
      (WsStep.finishB2C ⟨.sent, .copying, .closedConns, 0⟩ rfl)
  have h5 : WsReachable ⟨.sent, .sent, .closedConns, 1⟩ :=
    Relation.ReflTransGen.tail h4
      (WsStep.sendB2C ⟨.sent, .finished, .closedConns, 0⟩ rfl (by decide))
  have hdone := proxyWebsocket_tunnel.2.2.1 ⟨.sent, .sent, .closedConns, 1⟩ h5
    (by intro t ht; cases ht <;> simp_all)
  exact ⟨h5, hdone⟩

/-! ## Groundwork lemmas: diagnostic parsing -/

theorem takeWhile_append_of_all (pred : Char → Bool) :
    ∀ (xs : List Char) (y : Char) (rest : List Char),
      (∀ c ∈ xs, pred c = true) → pred y = false →
      (xs ++ y :: rest).takeWhile pred = xs := by
  intro xs
  induction xs with
  | nil =>
    intro y rest _ hy
    simp [List.takeWhile_cons, hy]
  | cons a as ih =>
    intro y rest hxs hy
    have ha : pred a = true := hxs a (List.mem_cons_self a as)
    simp only [List.cons_append, List.takeWhile_cons, ha, if_true]
    rw [ih y rest (fun c hc => hxs c (List.mem_cons_of_mem a hc)) hy]

theorem takeWhile_of_all (pred : Char → Bool) :
    ∀ l : List Char, (∀ c ∈ l, pred c = true) → l.takeWhile pred = l := by
  intro l
  induction l with
  | nil => intro _; rfl
  | cons a as ih =>
    intro h
    simp only [List.takeWhile_cons, h a (List.mem_cons_self a as), if_true]
    rw [ih fun c hc => h c (List.mem_cons_of_mem a hc)]

theorem tailsAfterNewlines_nil :
    ∀ cs : List Char, '\n' ∉ cs → tailsAfterNewlines cs = [] := by
  intro cs
  induction cs with
  | nil => intro _; rfl
  | cons c rest ih =>
    intro h
    have hc : ¬ c = '\n' := fun hh => h (hh ▸ List.mem_cons_self c rest)
    have hrest : '\n' ∉ rest := fun hh => h (List.mem_cons_of_mem c hh)
    simp only [tailsAfterNewlines]
    rw [if_neg hc, ih hrest]

theorem lineStartSuffixes_no_newline (cs : List Char) (h : '\n' ∉ cs) :
    lineStartSuffixes cs = [cs] := by
  simp only [lineStartSuffixes, tailsAfterNewlines_nil cs h]

theorem mem_digits_facts (ch : Char)
    (h : ch ∈ ['0', '1', '2', '3', '4', '5', '6', '7', '8', '9']) :
    ch.isDigit = true ∧ ch ≠ '\n' ∧ (ch != ':' && ch != '#') = true := by
  fin_cases h <;> exact ⟨by decide, by decide, by decide⟩

theorem repr_digit_facts (n : Nat) :
    ∀ ch ∈ (Nat.repr n).data,
      ch.isDigit = true ∧ ch ≠ '\n' ∧ (ch != ':' && ch != '#') = true := by
  intro ch hch
  rw [repr_data_eq] at hch
  exact mem_digits_facts ch (toDecDigits_mem n ch hch)

theorem matchColTail_col (c msg : List Char) (hc : c ≠ [])
    (hcch : ∀ ch ∈ c, ch.isDigit = true)
    (hmch : ∀ ch ∈ msg, (ch != '\n') = true) :
    matchColTail (c ++ ':' :: ' ' :: msg) = some msg := by
  have ht := takeWhile_append_of_all Char.isDigit c ':' (' ' :: msg) hcch (by decide)
  simp only [matchColTail]
  rw [ht, List.drop_left]
  simp [hc, takeWhile_of_all _ msg hmch]

theorem matchColTail_space (msg : List Char)
    (hmch : ∀ ch ∈ msg, (ch != '\n') = true) :
    matchColTail (' ' :: msg) = some msg := by
  simp [matchColTail, List.takeWhile_cons, takeWhile_of_all _ msg hmch]

theorem matchLineCol_col (p d c msg : List Char)
    (hp : p ≠ []) (hpch : ∀ ch ∈ p, (ch != ':' && ch != '#') = true)
    (hd : d ≠ []) (hdch : ∀ ch ∈ d, ch.isDigit = true)
    (hc : c ≠ []) (hcch : ∀ ch ∈ c, ch.isDigit = true)
    (hmch : ∀ ch ∈ msg, (ch != '\n') = true) :
    matchLineCol (p ++ ':' :: (d ++ ':' :: (c ++ ':' :: ' ' :: msg))) =
      some (p, d, msg) := by
  have htp := takeWhile_append_of_all (fun ch => ch != ':' && ch != '#') p ':'
    (d ++ ':' :: (c ++ ':' :: ' ' :: msg)) hpch (by decide)
  have htd := takeWhile_append_of_all Char.isDigit d ':'
    (c ++ ':' :: ' ' :: msg) hdch (by decide)
  simp only [matchLineCol]
  rw [htp, List.drop_left]
  simp [hp, hd, htd, List.drop_left, matchColTail_col c msg hc hcch hmch]

theorem matchLineCol_nocol (p d msg : List Char)
    (hp : p ≠ []) (hpch : ∀ ch ∈ p, (ch != ':' && ch != '#') = true)
    (hd : d ≠ []) (hdch : ∀ ch ∈ d, ch.isDigit = true)
    (hmch : ∀ ch ∈ msg, (ch != '\n') = true) :
    matchLineCol (p ++ ':' :: (d ++ ':' :: ' ' :: msg)) = some (p, d, msg) := by
  have htp := takeWhile_append_of_all (fun ch => ch != ':' && ch != '#') p ':'
    (d ++ ':' :: ' ' :: msg) hpch (by decide)
  have htd := takeWhile_append_of_all Char.isDigit d ':' (' ' :: msg) hdch
    (by decide)
  simp only [matchLineCol]
  rw [htp, List.drop_left]
  simp [hp, hd, htd, List.drop_left, matchColTail_space msg hmch]

theorem firstStartMatch_none {α : Type} (f : List Char → Option α) :
    ∀ ls : List (List Char), (∀ l ∈ ls, f l = none) →
      firstStartMatch f ls = none := by
  intro ls
  induction ls with
  | nil => intro _; rfl
  | cons l rest ih =>
    intro h
    simp only [firstStartMatch, h l (List.mem_cons_self l rest)]
    exact ih fun l2 hl2 => h l2 (List.mem_cons_of_mem l hl2)

theorem newCompileError_of_matchA (cfg : CompileConfig) (out : String)
    (p d msg : List Char)
    (hmatch : matchLineCol out.data = some (p, d, msg)) :
    (newCompileError cfg out).path = String.mk p
    ∧ (newCompileError cfg out).line = parseDigits d
    ∧ (newCompileError cfg out).description = String.mk msg := by
  simp only [newCompileError, lineStartSuffixes, firstStartMatch, hmatch]
  cases hrl : cfg.readLines (cfg.abs (String.mk p)) <;>
    by_cases hel : (cfg.errorLink != "") = true <;>
      simp [hrl, hel]

theorem newCompileError_generic (cfg : CompileConfig) (out : String)
    (h : ∀ s ∈ lineStartSuffixes out.data,
      matchLineCol s = none ∧ matchFallback s = none) :
    newCompileError cfg out =
      { sourceType := "Go code", title := "Go Compilation Error",
        description := "See console for build error." } := by
  simp only [newCompileError]
  rw [firstStartMatch_none matchLineCol _ fun s hs => (h s hs).1,
    firstStartMatch_none matchFallback _ fun s hs => (h s hs).2]

/-! ## Claim C5 -/

/-- C5: diagnostic parsing.  Given output that is a `path:line:col: message`
line (path nonempty without `:`, `#` or newlines; message without
newlines), `newCompileError` extracts exactly the path, the 1-based line
number and the message; given a `path:line: message` line (no column), it
extracts the same three fields; and when neither recognized diagnostic
pattern matches at any line start of the output — cross-line matches
included, since `[^:#]` and `\s` admit newlines — it returns the generic
`CompileError` with no source location whose description points the caller
at the raw console output. -/
theorem newCompileError_diagnostic_parsing :
    (∀ (cfg : CompileConfig) (p msg : String) (n c : Nat),
      p.data ≠ [] →
      (∀ ch ∈ p.data, ch ≠ ':' ∧ ch ≠ '#' ∧ ch ≠ '\n') →
      '\n' ∉ msg.data →
      (newCompileError cfg
          (p ++ ":" ++ Nat.repr n ++ ":" ++ Nat.repr c ++ ": " ++ msg)).path = p
      ∧ (newCompileError cfg
          (p ++ ":" ++ Nat.repr n ++ ":" ++ Nat.repr c ++ ": " ++ msg)).line = n
      ∧ (newCompileError cfg
          (p ++ ":" ++ Nat.repr n ++ ":" ++ Nat.repr c ++ ": " ++ msg)).description
          = msg)
    ∧ (∀ (cfg : CompileConfig) (p msg : String) (n : Nat),
      p.data ≠ [] →
      (∀ ch ∈ p.data, ch ≠ ':' ∧ ch ≠ '#' ∧ ch ≠ '\n') →
      '\n' ∉ msg.data →
      (newCompileError cfg (p ++ ":" ++ Nat.repr n ++ ": " ++ msg)).path = p
      ∧ (newCompileError cfg (p ++ ":" ++ Nat.repr n ++ ": " ++ msg)).line = n
      ∧ (newCompileError cfg (p ++ ":" ++ Nat.repr n ++ ": " ++ msg)).description
          = msg)
    ∧ (∀ (cfg : CompileConfig) (out : String),
      (∀ s ∈ lineStartSuffixes out.data,
        matchLineCol s = none ∧ matchFallback s = none) →
      newCompileError cfg out =
        { sourceType := "Go code", title := "Go Compilation Error",
          description := "See console for build error." }) := by
  have hcolon : (":" : String).data = [':'] := rfl
  have hcolsp : (": " : String).data = [':', ' '] := rfl
  refine ⟨?_, ?_, ?_⟩
  · intro cfg p msg n c hp hpch hmsg
    have hdn := repr_digit_facts n
    have hdc := repr_digit_facts c
    have hdata : (p ++ ":" ++ Nat.repr n ++ ":" ++ Nat.repr c ++ ": " ++ msg).data
        = p.data ++ ':' :: ((Nat.repr n).data ++ ':' ::
            ((Nat.repr c).data ++ ':' :: ' ' :: msg.data)) := by
      simp [String.data_append, hcolon, hcolsp, List.append_assoc]
    have hpch2 : ∀ ch ∈ p.data, (ch != ':' && ch != '#') = true := by
      intro ch hch
      obtain ⟨h1, h2, _⟩ := hpch ch hch
      simp [Bool.and_eq_true, bne_iff_ne]
      exact ⟨h1, h2⟩
    have hmch : ∀ ch ∈ msg.data, (ch != '\n') = true := fun ch hch =>
      bne_iff_ne.mpr fun hh => hmsg (hh ▸ hch)
    have hm : matchLineCol
        (p ++ ":" ++ Nat.repr n ++ ":" ++ Nat.repr c ++ ": " ++ msg).data =
          some (p.data, (Nat.repr n).data, msg.data) := by
      rw [hdata]
      exact matchLineCol_col p.data (Nat.repr n).data (Nat.repr c).data msg.data
        hp hpch2 (repr_data_ne_nil n) (fun ch hch => (hdn ch hch).1)
        (repr_data_ne_nil c) (fun ch hch => (hdc ch hch).1) hmch
    obtain ⟨h1, h2, h3⟩ := newCompileError_of_matchA cfg
      (p ++ ":" ++ Nat.repr n ++ ":" ++ Nat.repr c ++ ": " ++ msg)
      p.data (Nat.repr n).data msg.data hm
    exact ⟨h1, h2.trans (parseDigits_repr n), h3⟩
  · intro cfg p msg n hp hpch hmsg
    have hdn := repr_digit_facts n
    have hdata : (p ++ ":" ++ Nat.repr n ++ ": " ++ msg).data
        = p.data ++ ':' :: ((Nat.repr n).data ++ ':' :: ' ' :: msg.data) := by
      simp [String.data_append, hcolon, hcolsp, List.append_assoc]
    have hpch2 : ∀ ch ∈ p.data, (ch != ':' && ch != '#') = true := by
      intro ch hch
      obtain ⟨h1, h2, _⟩ := hpch ch hch
      simp [Bool.and_eq_true, bne_iff_ne]
      exact ⟨h1, h2⟩
    have hmch : ∀ ch ∈ msg.data, (ch != '\n') = true := fun ch hch =>
      bne_iff_ne.mpr fun hh => hmsg (hh ▸ hch)
    have hm : matchLineCol (p ++ ":" ++ Nat.repr n ++ ": " ++ msg).data =
        some (p.data, (Nat.repr n).data, msg.data) := by
      rw [hdata]
      exact matchLineCol_nocol p.data (Nat.repr n).data msg.data hp hpch2
        (repr_data_ne_nil n) (fun ch hch => (hdn ch hch).1) hmch
    obtain ⟨h1, h2, h3⟩ := newCompileError_of_matchA cfg
      (p ++ ":" ++ Nat.repr n ++ ": " ++ msg)
      p.data (Nat.repr n).data msg.data hm
    exact ⟨h1, h2.trans (parseDigits_repr n), h3⟩
  · intro cfg out h
    exact newCompileError_generic cfg out h

/-- C5 witness: the theorem applied at a concrete column-bearing line and a
concrete unparseable output, plus directly evaluated concrete cases — a
no-column line that only the fallback pattern can match (its path contains
`#`), the fallback matching across a newline (its `\s` being the newline,
so `"a:1:\nxyz"` parses as path `a`, line 1, message `xyz`), and the
primary pattern with a newline inside its path group. -/
theorem newCompileError_diagnostic_parsing_witness :
    (newCompileError ⟨"", id, fun _ => .ok []⟩
        "app/c.go:17:3: undefined: foo").path = "app/c.go"
    ∧ (newCompileError ⟨"", id, fun _ => .ok []⟩
        "app/c.go:17:3: undefined: foo").line = 17
    ∧ (newCompileError ⟨"", id, fun _ => .ok []⟩
        "app/c.go:17:3: undefined: foo").description = "undefined: foo"
    ∧ (newCompileError ⟨"", id, fun _ => .ok []⟩ "a#b.go:12: m").path = "a#b.go"
    ∧ (newCompileError ⟨"", id, fun _ => .ok []⟩ "a:1:\nxyz").path = "a"
    ∧ (newCompileError ⟨"", id, fun _ => .ok []⟩ "a:1:\nxyz").line = 1
    ∧ (newCompileError ⟨"", id, fun _ => .ok []⟩ "a:1:\nxyz").description = "xyz"
    ∧ (newCompileError ⟨"", id, fun _ => .ok []⟩ "ab\n:12: x").path = "ab\n"
    ∧ (newCompileError ⟨"", id, fun _ => .ok []⟩ "junk") =
        { sourceType := "Go code", title := "Go Compilation Error",
          description := "See console for build error." } := by
  have heq : ("app/c.go" ++ ":" ++ Nat.repr 17 ++ ":" ++ Nat.repr 3 ++ ": " ++
      "undefined: foo") = "app/c.go:17:3: undefined: foo" := by decide
  obtain ⟨h1, h2, h3⟩ := newCompileError_diagnostic_parsing.1
    ⟨"", id, fun _ => .ok []⟩ "app/c.go" "undefined: foo" 17 3
    (by decide) (by decide) (by decide)
  rw [heq] at h1 h2 h3
  refine ⟨h1, h2, h3, by decide, by decide, by decide, by decide, by decide, ?_⟩
  exact newCompileError_diagnostic_parsing.2.2 ⟨"", id, fun _ => .ok []⟩ "junk"
    (by decide)

end Hubply
